import Mathlib

/-!
Verification of the concurrent link checker (src/main.go).

The program spawns one goroutine running checkLink per hardcoded URL, then
enters a receive loop on an unbuffered channel of strings: for every link
received it spawns a goroutine that sleeps five seconds and then runs
checkLink on that link again, forever.  checkLink performs one http.Get,
prints one line classifying the link, and sends the link back on the
channel.

The embedding below has two layers.  checkLink is translated as a pure
function from the link and the result of http.Get to the finite list of
actions (prints and channel sends) it performs.  The whole program is
translated as a small-step transition system: a state carries a logical
clock in nanoseconds, the list of live goroutines (tasks), the output log,
and flags for the channel being closed, the receive loop having exited,
and the Go runtime having aborted with its all-goroutines-are-asleep
deadlock report.
-/

namespace LinkChecker

/-- The response value of http.Get.  The Go code discards it with a blank
identifier, so only the status code is modelled; it is never inspected. -/
structure Response where
  statusCode : Nat
deriving DecidableEq

/-- The pair returned by http.Get, collapsed to a sum: per the net/http
contract the error is non-nil exactly when the request fails at the
transport level (connection error, timeout, DNS failure); an HTTP-level
error status such as 404 or 500 is a completed request, hence an ok
response carrying that status code. -/
abbrev GetResult := Except String Response

/-- One observable action of checkLink: printing a line with fmt.Println,
or sending a value on the channel c. -/
inductive Action where
  | print (line : String)
  | send (v : String)
deriving DecidableEq

/-- Translation of checkLink (src/main.go lines 38-48) as the list of
actions it performs, in order.  fmt.Println joins its operands with a
single space.  On error it prints the down line, sends the link and
returns; otherwise it prints the up line and sends the link. -/
def checkLink (link : String) (r : GetResult) : List Action :=
  match r with
  | .error _ => [.print (link ++ " might be down!"), .send link]
  | .ok _ => [.print (link ++ " is up!"), .send link]

/-- The lines printed by a list of actions, in order. -/
def printsOf (acts : List Action) : List String :=
  acts.filterMap fun a =>
    match a with
    | .print s => some s
    | .send _ => none

/-- The values sent on the channel by a list of actions, in order. -/
def sendsOf (acts : List Action) : List String :=
  acts.filterMap fun a =>
    match a with
    | .send v => some v
    | .print _ => none

/-- checkLink classifies the link as down when it prints the down line. -/
def classifiedDown (link : String) (r : GetResult) : Prop :=
  (link ++ " might be down!") ∈ printsOf (checkLink link r)

/-- checkLink classifies the link as up when it prints the up line. -/
def classifiedUp (link : String) (r : GetResult) : Prop :=
  (link ++ " is up!") ∈ printsOf (checkLink link r)

/-- The hardcoded slice of links (src/main.go lines 10-16). -/
def links : List String :=
  ["http://google.com", "http://facebook.com", "http://stackoverflow.com",
   "http://golang.org", "http://amazon.com"]

/-- time.Second in nanoseconds. -/
def timeSecond : Nat := 1000000000

/-- The argument of time.Sleep in the relaunch goroutine
(src/main.go line 30): 5 * time.Second. -/
def relaunchDelay : Nat := 5 * timeSecond

/-- A live goroutine other than the main one.  A checkLink invocation is
first blocked in http.Get (probing), then blocked on its remaining channel
sends (emitting); the goroutine spawned by the receive loop is blocked in
time.Sleep until its wake time (relauncher). -/
inductive Task where
  | probing (link : String)
  | emitting (link : String) (pending : List String)
  | relauncher (link : String) (readyAt : Nat)
deriving DecidableEq

/-- The target a task is working for. -/
def Task.link : Task → String
  | .probing l => l
  | .emitting l _ => l
  | .relauncher l _ => l

/-- Global state: clock in nanoseconds, live tasks, printed log, whether
the channel c has been closed, whether the receive loop of main has
exited, and whether the Go runtime has aborted with its deadlock report. -/
structure SysState where
  now : Nat
  tasks : List Task
  log : List String
  closed : Bool
  exited : Bool
  faulted : Bool
deriving DecidableEq

/-- The state right after the startup loop (src/main.go lines 20-22):
one checkLink goroutine per configured link, blocked in http.Get; the
main goroutine is entering the receive loop. -/
def initState (ls : List String) : SysState :=
  { now := 0
    tasks := ls.map Task.probing
    log := []
    closed := false
    exited := false
    faulted := false }

/-- Events labelling the transitions of the system. -/
inductive Event where
  | tick (d : Nat)
  | probe (l : String) (r : GetResult)
  | deliver (v : String)
  | wake (l : String)
  | close
  | exitLoop
  | fault

/-- Small-step semantics of the program.  tick lets time pass.  probe
completes the http.Get of a probing task with result r; the task prints
its classification line and is left blocked on the sends of checkLink.
deliver is the rendezvous on the unbuffered channel: the receive loop of
main consumes the next pending send v of an emitting task and spawns the
relaunch goroutine for v, whose time.Sleep may end at the earliest
relaunchDelay from now; an emitting task with no send left has returned
and disappears.  wake ends the sleep of a relauncher no earlier than its
wake time and invokes checkLink on the same link, i.e. the task becomes a
probing task.  There is no rule for close: the source never closes c.
exitLoop is the for-range loop of main terminating, which Go only does
once the channel is closed.  fault is the Go runtime aborting with the
report that all goroutines are asleep: the main goroutine is blocked on
the channel receive and no other goroutine exists. -/
inductive Step : SysState → Event → SysState → Prop where
  | tick (s : SysState) (d : Nat) :
      s.faulted = false →
      Step s (.tick d) { s with now := s.now + d }
  | probe (s : SysState) (pre post : List Task) (l : String) (r : GetResult) :
      s.faulted = false →
      s.tasks = pre ++ Task.probing l :: post →
      Step s (.probe l r)
        { s with
            tasks := pre ++ Task.emitting l (sendsOf (checkLink l r)) :: post
            log := s.log ++ printsOf (checkLink l r) }
  | deliver (s : SysState) (pre post : List Task) (l v : String)
      (rest : List String) :
      s.faulted = false →
      s.exited = false →
      s.tasks = pre ++ Task.emitting l (v :: rest) :: post →
      Step s (.deliver v)
        { s with
            tasks :=
              (if rest.isEmpty then pre ++ post
               else pre ++ Task.emitting l rest :: post)
              ++ [Task.relauncher v (s.now + relaunchDelay)] }
  | wake (s : SysState) (pre post : List Task) (l : String) (r : Nat) :
      s.faulted = false →
      s.tasks = pre ++ Task.relauncher l r :: post →
      r ≤ s.now →
      Step s (.wake l) { s with tasks := pre ++ Task.probing l :: post }
  | exitLoop (s : SysState) :
      s.faulted = false →
      s.exited = false →
      s.closed = true →
      Step s .exitLoop { s with exited := true }
  | fault (s : SysState) :
      s.faulted = false →
      s.exited = false →
      s.tasks = [] →
      Step s .fault { s with faulted := true }

/-- Finite executions, labelled by the list of events taken. -/
inductive Steps : SysState → List Event → SysState → Prop where
  | refl (s : SysState) : Steps s [] s
  | cons {s s1 s2 : SysState} {e : Event} {es : List Event} :
      Step s e s1 → Steps s1 es s2 → Steps s (e :: es) s2

/-- States reachable from the startup state for a given link list. -/
def ReachableFrom (ls : List String) (s : SysState) : Prop :=
  ∃ es, Steps (initState ls) es s

/-- States reachable in the actual program, with the hardcoded links. -/
def Reachable (s : SysState) : Prop :=
  ReachableFrom links s

end LinkChecker

namespace LinkChecker

/-- Main invariant, for any configured link list: the channel is never
closed, the receive loop never exits, the multiset of links the live
tasks work for is exactly the configured list, every emitting task is
about to send exactly its own link, and with at least one configured
link the runtime never reports a deadlock. -/
def Inv (ls : List String) (s : SysState) : Prop :=
  s.closed = false ∧ s.exited = false ∧
  List.Perm (s.tasks.map Task.link) ls ∧
  (∀ l p, Task.emitting l p ∈ s.tasks → p = [l]) ∧
  (ls ≠ [] → s.faulted = false)

theorem sendsOf_checkLink (l : String) (r : GetResult) :
    sendsOf (checkLink l r) = [l] := by
  cases r <;> rfl

theorem inv_init (ls : List String) : Inv ls (initState ls) := by
  refine ⟨rfl, rfl, ?_, ?_, fun _ => rfl⟩
  · simp [initState, List.map_map, Task.link, Function.comp_def]
  · intro l p hm
    simp [initState, List.mem_map] at hm

theorem step_inv {ls : List String} {s s1 : SysState} {e : Event}
    (hinv : Inv ls s) (hs : Step s e s1) : Inv ls s1 := by
  obtain ⟨hc, he, hperm, hemit, hf⟩ := hinv
  cases hs with
  | tick d hf1 =>
      exact ⟨hc, he, hperm, hemit, fun _ => hf1⟩
  | probe pre post l r hf1 hdec =>
      refine ⟨hc, he, ?_, ?_, fun _ => hf1⟩
      · rw [hdec] at hperm
        simpa [List.map_append, Task.link] using hperm
      · intro l0 p0 hm
        simp only [List.mem_append, List.mem_cons] at hm
        rcases hm with hm | hm | hm
        · exact hemit l0 p0 (by rw [hdec]; simp [hm])
        · obtain ⟨hl, hp⟩ := Task.emitting.injEq .. ▸ hm
          subst hl
          rw [hp, sendsOf_checkLink]
        · exact hemit l0 p0 (by rw [hdec]; simp [hm])
  | deliver pre post l v rest hf1 he1 hdec =>
      have hvl : v :: rest = [l] := by
        refine hemit l (v :: rest) ?_
        rw [hdec]; simp
      have hv : v = l := (List.cons.injEq .. ▸ hvl).1
      have hrest : rest = [] := (List.cons.injEq .. ▸ hvl).2
      subst hv; subst hrest
      refine ⟨hc, he, ?_, ?_, fun _ => hf1⟩
      · rw [hdec] at hperm
        simp only [List.map_append, List.map_cons, Task.link] at hperm
        simp only [List.isEmpty_nil, if_pos, List.map_append, List.map_cons,
          List.map_nil, Task.link]
        refine List.Perm.trans ?_ hperm
        refine List.Perm.trans (List.perm_append_singleton _ _) ?_
        simpa using List.perm_middle.symm
      · intro l0 p0 hm
        simp only [List.isEmpty_nil, if_pos, List.mem_append, List.mem_cons,
          List.mem_singleton] at hm
        rcases hm with (hm | hm) | hm | hm
        · exact hemit l0 p0 (by rw [hdec]; simp [hm])
        · exact hemit l0 p0 (by rw [hdec]; simp [hm])
        · simp at hm
        · simp at hm
  | wake pre post l r hf1 hdec hr =>
      refine ⟨hc, he, ?_, ?_, fun _ => hf1⟩
      · rw [hdec] at hperm
        simpa [List.map_append, Task.link] using hperm
      · intro l0 p0 hm
        simp only [List.mem_append, List.mem_cons] at hm
        rcases hm with hm | hm | hm
        · exact hemit l0 p0 (by rw [hdec]; simp [hm])
        · cases hm
        · exact hemit l0 p0 (by rw [hdec]; simp [hm])
  | exitLoop hf1 he1 hcl =>
      rw [hc] at hcl
      cases hcl
  | fault hf1 he1 htasks =>
      refine ⟨hc, he, hperm, hemit, ?_⟩
      intro hne
      exfalso
      apply hne
      rw [htasks] at hperm
      simp only [List.map_nil] at hperm
      exact (List.Perm.eq_nil hperm.symm)

theorem steps_inv {ls : List String} {s s1 : SysState} {es : List Event}
    (hsteps : Steps s es s1) (hinv : Inv ls s) : Inv ls s1 := by
  induction hsteps with
  | refl s => exact hinv
  | cons h1 _ ih => exact ih (step_inv hinv h1)

theorem inv_reachable {ls : List String} {s : SysState}
    (h : ReachableFrom ls s) : Inv ls s := by
  obtain ⟨es, hes⟩ := h
  exact steps_inv hes (inv_init ls)

theorem steps_append {s s1 s2 : SysState} {es1 es2 : List Event}
    (h1 : Steps s es1 s1) (h2 : Steps s1 es2 s2) :
    Steps s (es1 ++ es2) s2 := by
  induction h1 with
  | refl s => exact h2
  | cons h1 _ ih => exact Steps.cons h1 (ih h2)

end LinkChecker

namespace LinkChecker

theorem countP_eq_one_elim {α : Type} (p : α → Bool) :
    ∀ xs : List α, xs.countP p = 1 →
      ∀ {a b : α}, a ∈ xs → b ∈ xs → p a = true → p b = true → a = b := by
  intro xs
  induction xs with
  | nil =>
      intro _ a b ha
      cases ha
  | cons x xs ih =>
      intro hcount a b ha hb hpa hpb
      rw [List.countP_cons] at hcount
      rcases List.mem_cons.mp ha with rfl | ha1 <;>
        rcases List.mem_cons.mp hb with rfl | hb1
      · rfl
      · exfalso
        rw [hpa, if_pos rfl] at hcount
        have hpos : 0 < xs.countP p := List.countP_pos_iff.mpr ⟨b, hb1, hpb⟩
        omega
      · exfalso
        rw [hpb, if_pos rfl] at hcount
        have hpos : 0 < xs.countP p := List.countP_pos_iff.mpr ⟨a, ha1, hpa⟩
        omega
      · have hpos : 0 < xs.countP p := List.countP_pos_iff.mpr ⟨a, ha1, hpa⟩
        have hx : xs.countP p = 1 := by
          rcases Bool.eq_false_or_eq_true (p x) with hpx | hpx
          · rw [hpx, if_pos rfl] at hcount
            omega
          · rw [hpx] at hcount
            simpa using hcount
        exact ih hx ha1 hb1 hpa hpb

/-- In every reachable state of the program there is exactly one live
goroutine working for each of the five configured links. -/
theorem one_task_per_link {s : SysState} (hs : Reachable s) :
    ∀ u ∈ links, s.tasks.countP (fun t => Task.link t == u) = 1 := by
  intro u hu
  obtain ⟨_, _, hperm, _, _⟩ := inv_reachable hs
  have h1 : s.tasks.countP (fun t => Task.link t == u)
      = (s.tasks.map Task.link).countP (fun x => x == u) :=
    (List.countP_map (fun x => x == u) Task.link s.tasks).symm
  rw [h1, hperm.countP_eq]
  fin_cases hu <;> decide

/-- Does this task hold a pending network probe (an in-flight checkLink
invocation) for the link u? -/
def probeFor (u : String) : Task → Bool
  | .probing l => l == u
  | .emitting l _ => l == u
  | .relauncher _ _ => false

/-- Does this task hold a pending delay timer (a sleeping relaunch
goroutine) for the link u? -/
def timerFor (u : String) : Task → Bool
  | .relauncher l _ => l == u
  | .probing _ => false
  | .emitting _ _ => false

/-- Number of pending checks for link u in state s. -/
def pendingProbes (s : SysState) (u : String) : Nat :=
  s.tasks.countP (probeFor u)

/-- Number of pending delay timers for link u in state s. -/
def pendingTimers (s : SysState) (u : String) : Nat :=
  s.tasks.countP (timerFor u)

theorem countP_split {α : Type} (p q r : α → Bool)
    (hpt : ∀ a, (p a || q a) = r a) (hd : ∀ a, ¬(p a = true ∧ q a = true)) :
    ∀ l : List α, l.countP p + l.countP q = l.countP r := by
  intro l
  induction l with
  | nil => rfl
  | cons x l ih =>
      simp only [List.countP_cons]
      have hr := hpt x
      rcases Bool.eq_false_or_eq_true (p x) with hpx | hpx <;>
        rcases Bool.eq_false_or_eq_true (q x) with hqx | hqx
      · exact absurd ⟨hpx, hqx⟩ (hd x)
      · rw [hpx, hqx] at hr
        simp only [Bool.true_or] at hr
        simp [hpx, hqx, ← hr]
        omega
      · rw [hpx, hqx] at hr
        simp only [Bool.or_true] at hr
        simp [hpx, hqx, ← hr]
        omega
      · rw [hpx, hqx] at hr
        simp only [Bool.or_self] at hr
        simp [hpx, hqx, ← hr]
        omega

theorem probeFor_add_timerFor (u : String) (ts : List Task) :
    ts.countP (probeFor u) + ts.countP (timerFor u)
      = ts.countP (fun t => Task.link t == u) := by
  refine countP_split _ _ _ ?_ ?_ ts
  · intro t
    cases t <;> simp [probeFor, timerFor, Task.link]
  · intro t
    cases t <;> simp [probeFor, timerFor]

/-- At every reachable instant, each configured link has exactly one
pending network probe or one pending delay timer, and never both. -/
def alwaysOnePending : Prop :=
  ∀ s, Reachable s → ∀ u ∈ links,
    pendingProbes s u + pendingTimers s u = 1 ∧
    ¬(0 < pendingProbes s u ∧ 0 < pendingTimers s u)

theorem alwaysOnePending_holds : alwaysOnePending := by
  intro s hs u hu
  have h1 := one_task_per_link hs u hu
  have h2 := probeFor_add_timerFor u s.tasks
  unfold pendingProbes pendingTimers
  omega

theorem relauncher_stable_step {s s1 : SysState} {e : Event} {l : String}
    {r : Nat} (hs : Step s e s1) (hne : e ≠ Event.wake l)
    (hmem : Task.relauncher l r ∈ s.tasks) :
    Task.relauncher l r ∈ s1.tasks := by
  cases hs with
  | tick d hf1 => exact hmem
  | probe pre post l0 r0 hf1 hdec =>
      rw [hdec] at hmem
      simp only [List.mem_append, List.mem_cons] at hmem ⊢
      rcases hmem with hm | hm | hm
      · exact Or.inl hm
      · exact absurd hm (by simp)
      · exact Or.inr (Or.inr hm)
  | deliver pre post l0 v rest hf1 he1 hdec =>
      rw [hdec] at hmem
      simp only [List.mem_append, List.mem_cons] at hmem
      rcases hmem with hm | hm | hm
      · refine List.mem_append_left _ ?_
        split <;> simp [hm]
      · exact absurd hm (by simp)
      · refine List.mem_append_left _ ?_
        split <;> simp [hm]
  | wake pre post l0 r0 hf1 hdec hr =>
      have hl0 : l0 ≠ l := by
        intro h
        exact hne (by rw [h])
      rw [hdec] at hmem
      simp only [List.mem_append, List.mem_cons] at hmem ⊢
      rcases hmem with hm | hm | hm
      · exact Or.inl hm
      · exfalso
        have := (Task.relauncher.injEq .. ▸ hm).1
        exact hl0 this.symm
      · exact Or.inr (Or.inr hm)
  | exitLoop hf1 he1 hcl => exact hmem
  | fault hf1 he1 htasks => exact hmem

theorem relauncher_stable_steps {s s1 : SysState} {es : List Event}
    {l : String} {r : Nat} (hsteps : Steps s es s1)
    (hne : Event.wake l ∉ es) (hmem : Task.relauncher l r ∈ s.tasks) :
    Task.relauncher l r ∈ s1.tasks := by
  induction hsteps with
  | refl s => exact hmem
  | cons h1 h2 ih =>
      refine ih (fun h => hne (List.mem_cons_of_mem _ h)) ?_
      refine relauncher_stable_step h1 ?_ hmem
      intro heq
      exact hne (heq ▸ List.mem_cons_self _ _)

end LinkChecker

namespace LinkChecker

theorem up_line_ne_down_line (l : String) :
    l ++ " is up!" ≠ l ++ " might be down!" := by
  intro h
  have hlen := congrArg String.length h
  rw [String.length_append, String.length_append] at hlen
  have h7 : (" is up!" : String).length = 7 := rfl
  have h15 : (" might be down!" : String).length = 15 := rfl
  omega

/-- C2: every invocation of checkLink on any link performs exactly one
send on the result channel, of that same link, never zero and never more
than one, unconditionally in both the up and the down branch, and the
invocation ends immediately after that send: the send is the last action
on every branch. -/
theorem checkLink_sends_exactly_once (l : String) (r : GetResult) :
    sendsOf (checkLink l r) = [l] ∧
    (sendsOf (checkLink l r)).length = 1 ∧
    (checkLink l r).getLast? = some (Action.send l) := by
  cases r <;> exact ⟨rfl, rfl, rfl⟩

/-- C3: checkLink classifies the probe as down exactly when http.Get
returns a transport-level error, and as up exactly when a response came
back, whatever its HTTP status code; in particular a completed request
with any status code, including 4xx and 5xx, is classified up and never
down. -/
theorem checkLink_classification (l : String) (r : GetResult) :
    (classifiedDown l r ↔ ∃ e, r = Except.error e) ∧
    (classifiedUp l r ↔ ∃ resp, r = Except.ok resp) ∧
    (∀ code : Nat, classifiedUp l (Except.ok ⟨code⟩) ∧
      ¬classifiedDown l (Except.ok ⟨code⟩)) := by
  have hud := up_line_ne_down_line l
  refine ⟨?_, ?_, ?_⟩
  · cases r with
    | error e => simp [classifiedDown, checkLink, printsOf]
    | ok resp =>
        simp only [classifiedDown, checkLink, printsOf, List.filterMap,
          List.mem_singleton]
        constructor
        · intro h
          exact absurd h.symm hud
        · rintro ⟨e, he⟩
          cases he
  · cases r with
    | error e =>
        simp only [classifiedUp, checkLink, printsOf, List.filterMap,
          List.mem_singleton]
        constructor
        · intro h
          exact absurd h hud
        · rintro ⟨resp, he⟩
          cases he
    | ok resp => simp [classifiedUp, checkLink, printsOf]
  · intro code
    constructor
    · simp [classifiedUp, checkLink, printsOf]
    · simp only [classifiedDown, checkLink, printsOf, List.filterMap,
        List.mem_singleton]
      intro h
      exact hud h.symm

/-- C8: every completed check prints exactly one line of output, namely
the literal target followed by a space and "is up!" when the check is
classified up, and by a space and "might be down!" when it is classified
down. -/
theorem checkLink_output_line (l e : String) (resp : Response) :
    printsOf (checkLink l (Except.error e)) = [l ++ " might be down!"] ∧
    printsOf (checkLink l (Except.ok resp)) = [l ++ " is up!"] ∧
    ∀ r : GetResult, (printsOf (checkLink l r)).length = 1 := by
  refine ⟨rfl, rfl, ?_⟩
  intro r
  cases r <;> rfl

end LinkChecker

namespace LinkChecker

theorem deliver_inversion {s s1 : SysState} {v : String}
    (hd : Step s (Event.deliver v) s1) :
    s1.now = s.now ∧ s1.exited = s.exited ∧ s1.faulted = s.faulted ∧
    Task.relauncher v (s.now + relaunchDelay) ∈ s1.tasks := by
  cases hd with
  | deliver pre post l v0 rest hfau hexi hdec => exact ⟨rfl, rfl, rfl, by simp⟩

theorem wake_inversion {t t1 : SysState} {l : String}
    (hw : Step t (Event.wake l) t1) :
    ∃ r, Task.relauncher l r ∈ t.tasks ∧ r ≤ t.now := by
  cases hw with
  | wake pre post l0 r hfau hdec hle =>
      exact ⟨r, by rw [hdec]; simp, hle⟩

theorem deliver_link_mem {s s1 : SysState} {v : String} (hs : Reachable s)
    (hd : Step s (Event.deliver v) s1) : v ∈ links := by
  obtain ⟨_, _, hperm, hemit, _⟩ := inv_reachable hs
  cases hd with
  | deliver pre post l v0 rest hfau hexi hdec =>
      have h1 : v :: rest = [l] := hemit l _ (by rw [hdec]; simp)
      have hv : v = l := (List.cons.injEq .. ▸ h1).1
      subst hv
      refine hperm.mem_iff.mp ?_
      rw [hdec]
      simp [Task.link]

/-- The state reached from startup by completing the probe of the first
link with a 200 response. -/
def stB : SysState :=
  { now := 0
    tasks := [Task.emitting "http://google.com" ["http://google.com"],
              Task.probing "http://facebook.com",
              Task.probing "http://stackoverflow.com",
              Task.probing "http://golang.org",
              Task.probing "http://amazon.com"]
    log := ["http://google.com is up!"]
    closed := false
    exited := false
    faulted := false }

/-- stB after the receive loop consumes the result of the first link and
spawns its relaunch goroutine. -/
def stC : SysState :=
  { now := 0
    tasks := [Task.probing "http://facebook.com",
              Task.probing "http://stackoverflow.com",
              Task.probing "http://golang.org",
              Task.probing "http://amazon.com",
              Task.relauncher "http://google.com" relaunchDelay]
    log := ["http://google.com is up!"]
    closed := false
    exited := false
    faulted := false }

/-- stC after the fixed delay has passed. -/
def stD : SysState :=
  { stC with now := relaunchDelay }

/-- stD after the relaunch goroutine wakes and invokes checkLink again. -/
def stE : SysState :=
  { stD with
      tasks := [Task.probing "http://facebook.com",
                Task.probing "http://stackoverflow.com",
                Task.probing "http://golang.org",
                Task.probing "http://amazon.com",
                Task.probing "http://google.com"] }

theorem stepAB : Step (initState links)
    (Event.probe "http://google.com" (Except.ok ⟨200⟩)) stB :=
  Step.probe (initState links) []
    [Task.probing "http://facebook.com", Task.probing "http://stackoverflow.com",
     Task.probing "http://golang.org", Task.probing "http://amazon.com"]
    "http://google.com" (Except.ok ⟨200⟩) rfl rfl

theorem stepBC : Step stB (Event.deliver "http://google.com") stC :=
  Step.deliver stB []
    [Task.probing "http://facebook.com", Task.probing "http://stackoverflow.com",
     Task.probing "http://golang.org", Task.probing "http://amazon.com"]
    "http://google.com" "http://google.com" [] rfl rfl rfl

theorem stepCD : Step stC (Event.tick relaunchDelay) stD :=
  Step.tick stC relaunchDelay rfl

theorem stepDE : Step stD (Event.wake "http://google.com") stE :=
  Step.wake stD
    [Task.probing "http://facebook.com", Task.probing "http://stackoverflow.com",
     Task.probing "http://golang.org", Task.probing "http://amazon.com"]
    [] "http://google.com" relaunchDelay rfl rfl (Nat.le_refl _)

theorem reachB : Reachable stB :=
  ⟨[Event.probe "http://google.com" (Except.ok ⟨200⟩)],
    Steps.cons stepAB (Steps.refl _)⟩

end LinkChecker

namespace LinkChecker

/-- The wake of a relaunch goroutine whose timer has run out turns it
into an invocation of checkLink on its own link, leaving every other
task untouched. -/
def wakeInvokesChecker (t t1 : SysState) (l : String) : Prop :=
  ∃ pre post r, t.tasks = pre ++ Task.relauncher l r :: post ∧
    t1.tasks = pre ++ Task.probing l :: post ∧ r ≤ t.now

/-- C1: the Coordinator follows the specified algorithm.  At startup one
concurrent checkLink task is launched immediately for every configured
link, in order (the model has a single shared result channel which every
task uses).  Whenever the receive loop consumes a link v from the
channel it launches one new concurrent task for that same link, which
stays suspended until at least the fixed delay has passed; when that
task wakes it invokes checkLink on that same link. -/
theorem coordinator_algorithm (ls : List String) (s s1 t t1 : SysState)
    (v l : String)
    (hd : Step s (Event.deliver v) s1) (hw : Step t (Event.wake l) t1) :
    (initState ls).tasks = ls.map Task.probing ∧
    Task.relauncher v (s.now + relaunchDelay) ∈ s1.tasks ∧
    wakeInvokesChecker t t1 l := by
  refine ⟨rfl, (deliver_inversion hd).2.2.2, ?_⟩
  cases hw with
  | wake pre post l0 r hfau hdec hle =>
      exact ⟨pre, post, r, hdec, rfl, hle⟩

theorem coordinator_algorithm_witness :
    (initState links).tasks = links.map Task.probing ∧
    Task.relauncher "http://google.com" (stB.now + relaunchDelay) ∈ stC.tasks ∧
    wakeInvokesChecker stD stE "http://google.com" :=
  coordinator_algorithm links stB stC stD stE
    "http://google.com" "http://google.com" stepBC stepDE

/-- C4: consider any reachable state in which the receive loop consumes
the completed check of a link l (its completion instant: checkLink ends
right after this send), followed by any execution in which the relaunch
goroutine of l has not yet woken, and then by the wake that starts the
next check of l.  The next check starts no earlier than the fixed delay
after the completion.  Moreover at every reachable instant every
configured link has exactly one pending network probe or one pending
delay timer, never both concurrently and never two probes. -/
theorem delay_and_no_overlap (s s1 s2 s3 : SysState) (l : String)
    (evs : List Event) (hs : Reachable s)
    (hd : Step s (Event.deliver l) s1) (hmid : Steps s1 evs s2)
    (hnw : Event.wake l ∉ evs) (hw : Step s2 (Event.wake l) s3) :
    s1.now + relaunchDelay ≤ s2.now ∧ alwaysOnePending := by
  obtain ⟨hnow1, _, _, hmem1⟩ := deliver_inversion hd
  have hvlinks : l ∈ links := deliver_link_mem hs hd
  have hmem2 : Task.relauncher l (s.now + relaunchDelay) ∈ s2.tasks :=
    relauncher_stable_steps hmid hnw hmem1
  have hreach2 : Reachable s2 := by
    obtain ⟨es, hes⟩ := hs
    exact ⟨es ++ Event.deliver l :: evs,
      steps_append hes (Steps.cons hd hmid)⟩
  have hcount := one_task_per_link hreach2 l hvlinks
  obtain ⟨r2, hr2mem, hr2le⟩ := wake_inversion hw
  have heq : Task.relauncher l (s.now + relaunchDelay) = Task.relauncher l r2 :=
    countP_eq_one_elim _ s2.tasks hcount hmem2 hr2mem
      (by simp [Task.link]) (by simp [Task.link])
  have hr2 : s.now + relaunchDelay = r2 := (Task.relauncher.injEq .. ▸ heq).2
  refine ⟨?_, alwaysOnePending_holds⟩
  rw [hnow1]
  omega

theorem delay_and_no_overlap_witness :
    stC.now + relaunchDelay ≤ stD.now ∧ alwaysOnePending :=
  delay_and_no_overlap stB stC stD stE "http://google.com"
    [Event.tick relaunchDelay] reachB stepBC
    (Steps.cons stepCD (Steps.refl _)) (by simp) stepDE

/-- From this state no transition closes the result channel and no
transition makes the receive loop of main terminate. -/
def noCloseOrExit (s : SysState) : Prop :=
  (∀ s1, ¬ Step s Event.close s1) ∧ (∀ s1, ¬ Step s Event.exitLoop s1)

/-- C5: in every reachable state of the program the result channel has
never been closed and the receive loop has not terminated, and the next
step is never a close of the channel nor a normal exit of the receive
loop: the program has no internal exit path after startup. -/
theorem never_closed_never_exits (s : SysState) (hs : Reachable s) :
    s.closed = false ∧ s.exited = false ∧ noCloseOrExit s := by
  obtain ⟨hc, he, _, _, _⟩ := inv_reachable hs
  refine ⟨hc, he, ?_, ?_⟩
  · intro s1 h
    cases h
  · intro s1 h
    cases h with
    | exitLoop hfau hexi hcl =>
        rw [hc] at hcl
        cases hcl

theorem never_closed_never_exits_witness :
    (initState links).closed = false ∧ (initState links).exited = false ∧
    noCloseOrExit (initState links) :=
  never_closed_never_exits (initState links) ⟨[], Steps.refl _⟩

/-- C6: scheduling is outcome-blind.  checkLink feeds the very same
value into the relaunch path whatever the classification of the probe;
the action the Coordinator performs on a consumed result is the same
relaunch whatever check produced it; and completing a probe, whether it
failed at the transport level or not, never terminates the Coordinator,
never faults the process, and never removes any target from the
rotation. -/
theorem outcome_blind_scheduling (s s1 t t1 : SysState) (v l : String)
    (r r2 : GetResult)
    (hd : Step s (Event.deliver v) s1) (hp : Step t (Event.probe l r) t1) :
    sendsOf (checkLink l r) = sendsOf (checkLink l r2) ∧
    Task.relauncher v (s.now + relaunchDelay) ∈ s1.tasks ∧
    s1.exited = s.exited ∧ s1.faulted = s.faulted ∧
    t1.tasks.map Task.link = t.tasks.map Task.link ∧
    t1.exited = t.exited ∧ t1.faulted = t.faulted ∧ t1.closed = t.closed := by
  obtain ⟨_, hexi, hfau, hmem⟩ := deliver_inversion hd
  refine ⟨by cases r <;> cases r2 <;> rfl, hmem, hexi, hfau, ?_⟩
  cases hp with
  | probe pre post l0 r0 hfau1 hdec =>
      refine ⟨?_, rfl, rfl, rfl⟩
      rw [hdec]
      simp [Task.link]

theorem outcome_blind_scheduling_witness :
    sendsOf (checkLink "http://google.com" (Except.ok ⟨200⟩))
      = sendsOf (checkLink "http://google.com" (Except.error "no such host")) ∧
    Task.relauncher "http://google.com" (stB.now + relaunchDelay) ∈ stC.tasks ∧
    stC.exited = stB.exited ∧ stC.faulted = stB.faulted ∧
    stB.tasks.map Task.link = (initState links).tasks.map Task.link ∧
    stB.exited = (initState links).exited ∧
    stB.faulted = (initState links).faulted ∧
    stB.closed = (initState links).closed :=
  outcome_blind_scheduling stB stC (initState links) stB
    "http://google.com" "http://google.com"
    (Except.ok ⟨200⟩) (Except.error "no such host") stepBC stepAB

/-- C9: the fixed delay between consecutive checks of the same target is
exactly 5 seconds: the relaunch goroutine sleeps for 5 * time.Second
nanoseconds, and the task spawned for a consumed link carries a wake
time exactly that far in the future. -/
theorem delay_is_five_seconds (s s1 : SysState) (v : String)
    (hd : Step s (Event.deliver v) s1) :
    relaunchDelay = 5 * timeSecond ∧ timeSecond = 1000000000 ∧
    Task.relauncher v (s.now + relaunchDelay) ∈ s1.tasks :=
  ⟨rfl, rfl, (deliver_inversion hd).2.2.2⟩

theorem delay_is_five_seconds_witness :
    relaunchDelay = 5 * timeSecond ∧ timeSecond = 1000000000 ∧
    Task.relauncher "http://google.com" (stB.now + relaunchDelay) ∈ stC.tasks :=
  delay_is_five_seconds stB stC "http://google.com" stepBC

/-- C10: the configured target set is exactly the five hardcoded URLs in
their source order; in every reachable state every live task works for
one of them and the multiset of targets under work never changes, so
every check ever performed, in particular every completed probe, is
against one of these five strings. -/
theorem hardcoded_links (s s1 : SysState) (l : String) (r : GetResult)
    (hs : Reachable s) (hp : Step s (Event.probe l r) s1) :
    links = ["http://google.com", "http://facebook.com",
      "http://stackoverflow.com", "http://golang.org", "http://amazon.com"] ∧
    l ∈ links ∧ (∀ t ∈ s.tasks, Task.link t ∈ links) ∧
    List.Perm (s.tasks.map Task.link) links := by
  obtain ⟨_, _, hperm, _, _⟩ := inv_reachable hs
  refine ⟨rfl, ?_, ?_, hperm⟩
  · cases hp with
    | probe pre post l0 r0 hfau hdec =>
        refine hperm.mem_iff.mp ?_
        rw [hdec]
        simp [Task.link]
  · intro t ht
    exact hperm.mem_iff.mp (List.mem_map_of_mem Task.link ht)

theorem hardcoded_links_witness :
    links = ["http://google.com", "http://facebook.com",
      "http://stackoverflow.com", "http://golang.org", "http://amazon.com"] ∧
    "http://google.com" ∈ links ∧
    (∀ t ∈ (initState links).tasks, Task.link t ∈ links) ∧
    List.Perm ((initState links).tasks.map Task.link) links :=
  hardcoded_links (initState links) stB "http://google.com"
    (Except.ok ⟨200⟩) ⟨[], Steps.refl _⟩ stepAB

end LinkChecker

namespace LinkChecker

theorem steps_nil_pres {s s1 : SysState} {es : List Event}
    (hsteps : Steps s es s1) (h0 : s.tasks = [] ∧ s.log = []) :
    s1.tasks = [] ∧ s1.log = [] := by
  induction hsteps with
  | refl s => exact h0
  | cons h1 h2 ih =>
      refine ih ?_
      obtain ⟨ht, hl⟩ := h0
      cases h1 with
      | tick d hfau => exact ⟨ht, hl⟩
      | probe pre post l r hfau hdec =>
          rw [ht] at hdec
          exact absurd hdec.symm (by simp)
      | deliver pre post l v rest hfau hexi hdec =>
          rw [ht] at hdec
          exact absurd hdec.symm (by simp)
      | wake pre post l r hfau hdec hle =>
          rw [ht] at hdec
          exact absurd hdec.symm (by simp)
      | exitLoop hfau hexi hcl => exact ⟨ht, hl⟩
      | fault hfau hexi htasks => exact ⟨ht, hl⟩

theorem reach_nil {s : SysState} (h : ReachableFrom [] s) :
    s.tasks = [] ∧ s.log = [] := by
  obtain ⟨es, hes⟩ := h
  exact steps_nil_pres hes ⟨rfl, rfl⟩

/-- C7 as stated is false: with zero configured targets the Coordinator
performs no checks, but the receive loop does not suspend forever
without error.  At the very first state the sole goroutine, main, is
blocked on a channel receive that nothing can ever serve, so the Go
runtime deadlock detector aborts the process with the report that all
goroutines are asleep: the fault transition is enabled immediately and
leads to a faulted state. -/
theorem zero_targets_deadlock_report :
    Step (initState ([] : List String)) Event.fault
      { initState ([] : List String) with faulted := true } ∧
    ({ initState ([] : List String) with faulted := true }).faulted = true ∧
    (initState ([] : List String)).faulted = false :=
  ⟨Step.fault (initState ([] : List String)) rfl rfl rfl, rfl, rfl⟩

/-- C7, amended: with zero configured targets the Coordinator performs
no checks and produces no output in any reachable state, and its receive
loop makes no progress; but instead of suspending forever without error,
the Go runtime deadlock detector reports a fatal error, since the sole
goroutine is asleep on the channel receive with no sender in existence. -/
theorem zero_targets_no_checks (s : SysState)
    (h : ReachableFrom [] s) :
    s.tasks = [] ∧ s.log = [] ∧ s.exited = false ∧
    (∃ s1, Step (initState ([] : List String)) Event.fault s1 ∧
      s1.faulted = true) := by
  obtain ⟨ht, hl⟩ := reach_nil h
  obtain ⟨_, he, _, _, _⟩ := inv_reachable h
  exact ⟨ht, hl, he,
    ⟨{ initState ([] : List String) with faulted := true },
      Step.fault (initState ([] : List String)) rfl rfl rfl, rfl⟩⟩

theorem zero_targets_no_checks_witness :
    (initState ([] : List String)).tasks = [] ∧
    (initState ([] : List String)).log = [] ∧
    (initState ([] : List String)).exited = false ∧
    (∃ s1, Step (initState ([] : List String)) Event.fault s1 ∧
      s1.faulted = true) :=
  zero_targets_no_checks (initState ([] : List String)) ⟨[], Steps.refl _⟩

end LinkChecker
